import Mathlib

/-!
Shallow embedding of the duplicate-resolution and grade-upsert core of the
Plataforma-calificaciones repository (src/materias_util.py, src/app.py,
src/models.py), together with proofs of the specification claims.

Tables are embedded as Lean lists of row structures (one structure per table
of models.py); SQL statements become list functions.  SQLite's `ROW_NUMBER()
OVER (PARTITION BY k ORDER BY id)` with `rn > 1` selects, for rows with
pairwise-distinct `id` (the primary key), exactly the rows having a
same-group row of strictly smaller `id`; that is how the deletion queries
are embedded.  `fetchone` / `one=True` on an unordered `SELECT` is embedded
as `List.find?` (first row in table order); SQLite's automatic id
assignment for `INSERT` without an explicit id is embedded as max id + 1.
-/

namespace Plataforma

/-- Row of the `materias` table (src/models.py `Materia`, and the columns
`nombre, licenciatura, semestre` used throughout src/app.py). -/
structure MateriaRow where
  id : Nat
  nombre : String
  licenciatura : String
  semestre : String
deriving DecidableEq

/-- Row of the `calificaciones` table (src/models.py `Calificacion`). -/
structure CalificacionRow where
  id : Nat
  user_id : Nat
  materia : Nat
  calificacion : Int
deriving DecidableEq

/-- Row of the `estudiantes` table (src/models.py `Estudiante`). -/
structure EstudianteRow where
  id : Nat
  nombre : String
  matricula : String
  username : String
  password : String
deriving DecidableEq

/-- Identity (group key) of a course row: `PARTITION BY nombre, licenciatura,
semestre` in src/materias_util.py line 92. -/
def materiaKey (r : MateriaRow) : String × String × String :=
  (r.nombre, r.licenciatura, r.semestre)

/-- Identity (group key) of a grade row: `PARTITION BY user_id, materia` in
src/materias_util.py line 117. -/
def califKey (r : CalificacionRow) : Nat × Nat :=
  (r.user_id, r.materia)

/-- The deletion performed by the `WITH cte AS (SELECT id, ROW_NUMBER() OVER
(PARTITION BY ... ORDER BY id) AS rn ...) DELETE ... WHERE id IN (SELECT id
FROM cte WHERE rn > 1)` statements of src/materias_util.py: a row is deleted
exactly when some row of the same group has a strictly smaller id. -/
def deleteDupRows {α κ : Type} [DecidableEq κ] (key : α → κ) (rid : α → Nat)
    (t : List α) : List α :=
  t.filter (fun r => !(t.any (fun s => decide (key s = key r) && decide (rid s < rid r))))

/-- src/materias_util.py lines 83-105 `eliminar_materias_duplicadas`. -/
def eliminar_materias_duplicadas (t : List MateriaRow) : List MateriaRow :=
  deleteDupRows materiaKey (fun r => r.id) t

/-- src/materias_util.py lines 108-130 `eliminar_calificaciones_duplicadas`. -/
def eliminar_calificaciones_duplicadas (t : List CalificacionRow) : List CalificacionRow :=
  deleteDupRows califKey (fun r => r.id) t

/-- Outcome reported by the upsert path: src/app.py `guardar_calificacion` /
`registrar_calificacion` report the message `Calificación actualizada`
(Updated) after the UPDATE branch and `Calificación registrada` (Inserted)
after the INSERT branch. -/
inductive Outcome where
  | Inserted
  | Updated
deriving DecidableEq

/-- Id SQLite assigns to a row inserted without an explicit id:
one more than the largest id in the table (max rowid + 1). -/
def freshId (t : List CalificacionRow) : Nat :=
  (t.foldr (fun r m => Nat.max r.id m) 0) + 1

/-- The lookup predicate of `SELECT id FROM calificaciones WHERE user_id = ?
AND materia = ?` (src/materias_util.py lines 35-38). -/
def pairMatch (user_id materia_id : Nat) (r : CalificacionRow) : Bool :=
  decide (r.user_id = user_id) && decide (r.materia = materia_id)

/-- src/materias_util.py lines 28-61 `actualizar_calificacion` (the same
lookup-then-UPDATE-or-INSERT sequence as src/app.py `guardar_calificacion`
lines 580-606 and `registrar_calificacion` lines 647-667): fetch one row for
the (user_id, materia) pair; if found, `UPDATE calificaciones SET
calificacion = ? WHERE id = ?` with the found row's id; otherwise `INSERT
INTO calificaciones (user_id, materia, calificacion) VALUES (?, ?, ?)`. -/
def actualizar_calificacion (t : List CalificacionRow) (user_id materia_id : Nat)
    (nueva_calificacion : Int) : List CalificacionRow × Outcome :=
  match t.find? (pairMatch user_id materia_id) with
  | some existente =>
      (t.map (fun r => if r.id = existente.id then { r with calificacion := nueva_calificacion } else r),
       Outcome.Updated)
  | none =>
      (t ++ [{ id := freshId t, user_id := user_id, materia := materia_id,
               calificacion := nueva_calificacion }],
       Outcome.Inserted)

/-- src/materias_util.py lines 64-80 `verificar_materia_duplicada` (same
query as the src/app.py line 893 version): `SELECT id FROM materias WHERE
nombre = ? AND licenciatura = ? AND semestre = ?`, then `fetchone() is not
None`. -/
def verificar_materia_duplicada (t : List MateriaRow)
    (nombre licenciatura semestre : String) : Bool :=
  (t.find? (fun r => decide (r.nombre = nombre) && decide (r.licenciatura = licenciatura)
      && decide (r.semestre = semestre))).isSome

/-- Id SQLite assigns to a course row inserted without an explicit id. -/
def freshMateriaId (t : List MateriaRow) : Nat :=
  (t.foldr (fun r m => Nat.max r.id m) 0) + 1

/-- src/app.py lines 855-890 `add_materia` (database effect only): reject
when a field is missing, reject when `verificar_materia_duplicada` reports an
existing row, otherwise `INSERT INTO materias (nombre, licenciatura,
semestre) VALUES (?, ?, ?)`. -/
def add_materia (t : List MateriaRow) (nombre licenciatura semestre : String) :
    List MateriaRow :=
  if nombre = "" ∨ licenciatura = "" ∨ semestre = "" then t
  else if verificar_materia_duplicada t nombre licenciatura semestre then t
  else t ++ [{ id := freshMateriaId t, nombre := nombre, licenciatura := licenciatura,
               semestre := semestre }]

/-- Minimum of a list of ids, `none` on the empty list (the value of
`SELECT MIN(id)` over one group). -/
def minIdAux : List Nat → Option Nat
  | [] => none
  | x :: xs =>
    match minIdAux xs with
    | none => some x
    | some m => some (if x ≤ m then x else m)

/-- The rows of one course-identity group. -/
def grupoMaterias (t : List MateriaRow) (k : String × String × String) : List MateriaRow :=
  t.filter (fun r => decide (materiaKey r = k))

/-- src/app.py lines 1030-1036 (`gestionar_materias_view`, also
`gestion_materias` lines 899-905): `SELECT id, nombre, licenciatura,
semestre FROM materias WHERE id NOT IN (SELECT MIN(id) FROM materias GROUP
BY nombre, licenciatura, semestre)`.  A row is returned exactly when its id
is the MIN(id) of no group present in the table (GROUP BY deduplicates the
keys, which does not change membership in the IN-set). -/
def materias_duplicadas_query (t : List MateriaRow) : List MateriaRow :=
  t.filter (fun r =>
    !(t.any (fun s => decide (minIdAux ((grupoMaterias t (materiaKey s)).map (fun x => x.id)) = some r.id))))

/-- The three tables of the database relevant to the core logic. -/
structure DBState where
  estudiantes : List EstudianteRow
  materias : List MateriaRow
  calificaciones : List CalificacionRow
deriving DecidableEq

/-- `eliminar_materias_duplicadas` as an action on the whole database: its
single DELETE statement touches only the `materias` table. -/
def eliminar_materias_duplicadas_db (db : DBState) : DBState :=
  { db with materias := eliminar_materias_duplicadas db.materias }

/-- `eliminar_calificaciones_duplicadas` as an action on the whole database:
its single DELETE statement touches only the `calificaciones` table. -/
def eliminar_calificaciones_duplicadas_db (db : DBState) : DBState :=
  { db with calificaciones := eliminar_calificaciones_duplicadas db.calificaciones }

/-- `actualizar_calificacion` as an action on the whole database: its
statements touch only the `calificaciones` table. -/
def actualizar_calificacion_db (db : DBState) (user_id materia_id : Nat)
    (nueva_calificacion : Int) : DBState × Outcome :=
  let res := actualizar_calificacion db.calificaciones user_id materia_id nueva_calificacion
  ({ db with calificaciones := res.1 }, res.2)

/-- The single error kind surfaced by the data layer: the store rejected or
could not execute a statement. -/
inductive StorageError where
  | writeFailed
deriving DecidableEq

/-- src/materias_util.py lines 28-61 with the underlying write modelled as
fallible (`writeOk = false` means the UPDATE/INSERT raised): the `except`
branch runs `conn.rollback()` and re-raises, so on failure the committed
table is the original one and the error propagates; there is no retry. -/
def actualizar_calificacion_run (writeOk : Bool) (t : List CalificacionRow)
    (user_id materia_id : Nat) (nueva_calificacion : Int) :
    List CalificacionRow × Except StorageError Outcome :=
  if writeOk then
    let res := actualizar_calificacion t user_id materia_id nueva_calificacion
    (res.1, Except.ok res.2)
  else
    (t, Except.error StorageError.writeFailed)

/-- src/materias_util.py lines 83-105 with the single DELETE statement
modelled as fallible: the whole deletion is one statement followed by one
`conn.commit()`, and SQLite statements are atomic, so on failure nothing was
committed and the table is unchanged. -/
def eliminar_materias_duplicadas_run (writeOk : Bool) (t : List MateriaRow) :
    List MateriaRow × Except StorageError Unit :=
  if writeOk then (eliminar_materias_duplicadas t, Except.ok ())
  else (t, Except.error StorageError.writeFailed)

/-- src/materias_util.py lines 108-130 with the single DELETE statement
modelled as fallible, as for the materias variant. -/
def eliminar_calificaciones_duplicadas_run (writeOk : Bool) (t : List CalificacionRow) :
    List CalificacionRow × Except StorageError Unit :=
  if writeOk then (eliminar_calificaciones_duplicadas t, Except.ok ())
  else (t, Except.error StorageError.writeFailed)

/-- Number of rows of `t` whose group key is `k` (course table). -/
def materiaKeyCount (t : List MateriaRow) (k : String × String × String) : Nat :=
  (t.filter (fun r => decide (materiaKey r = k))).length

/-- Number of rows of `t` whose group key is `k` (grades table). -/
def califKeyCount (t : List CalificacionRow) (k : Nat × Nat) : Nat :=
  (t.filter (fun r => decide (califKey r = k))).length

/-! ### Helper lemmas about the duplicate-deletion statement -/

theorem mem_deleteDupRows {α κ : Type} [DecidableEq κ] {key : α → κ} {rid : α → Nat}
    {t : List α} {r : α} :
    r ∈ deleteDupRows key rid t ↔
      r ∈ t ∧ ∀ s ∈ t, key s = key r → ¬ rid s < rid r := by
  simp only [deleteDupRows, List.mem_filter, Bool.not_eq_eq_eq_not, Bool.not_true,
    List.any_eq_false, Bool.and_eq_true, decide_eq_true_eq, not_and]

theorem deleteDupRows_sublist {α κ : Type} [DecidableEq κ] (key : α → κ) (rid : α → Nat)
    (t : List α) : List.Sublist (deleteDupRows key rid t) t :=
  List.filter_sublist t

theorem deleteDupRows_idem {α κ : Type} [DecidableEq κ] (key : α → κ) (rid : α → Nat)
    (t : List α) :
    deleteDupRows key rid (deleteDupRows key rid t) = deleteDupRows key rid t := by
  apply List.filter_eq_self.mpr
  intro r hr
  have h := mem_deleteDupRows.mp hr
  simp only [Bool.not_eq_eq_eq_not, Bool.not_true, List.any_eq_false, Bool.and_eq_true,
    decide_eq_true_eq, not_and]
  intro s hs hk
  exact h.2 s ((deleteDupRows_sublist key rid t).subset hs) hk

theorem deleteDupRows_min {α κ : Type} [DecidableEq κ] {key : α → κ} {rid : α → Nat}
    {t : List α} {s : α} (hs : s ∈ deleteDupRows key rid t)
    {w : α} (hw : w ∈ t) (hk : key w = key s) : rid s ≤ rid w :=
  Nat.le_of_not_lt ((mem_deleteDupRows.mp hs).2 w hw hk)

theorem minIdAux_cons_isSome (x : Nat) (xs : List Nat) : ∃ m, minIdAux (x :: xs) = some m := by
  simp only [minIdAux]
  cases minIdAux xs with
  | none => exact ⟨x, rfl⟩
  | some m' => exact ⟨if x ≤ m' then x else m', rfl⟩

theorem minIdAux_eq_none {l : List Nat} (h : minIdAux l = none) : l = [] := by
  cases l with
  | nil => rfl
  | cons x xs =>
    exfalso
    obtain ⟨m, hm⟩ := minIdAux_cons_isSome x xs
    rw [h] at hm
    exact Option.noConfusion hm

theorem minIdAux_mem : ∀ {l : List Nat} {m : Nat}, minIdAux l = some m → m ∈ l := by
  intro l
  induction l with
  | nil => intro m h; simp [minIdAux] at h
  | cons x xs ih =>
    intro m h
    simp only [minIdAux] at h
    cases hxs : minIdAux xs with
    | none =>
      rw [hxs] at h
      simp only [Option.some.injEq] at h
      simp [h]
    | some m' =>
      rw [hxs] at h
      simp only [Option.some.injEq] at h
      have hm' : m' ∈ xs := ih hxs
      by_cases hle : x ≤ m'
      · rw [if_pos hle] at h
        simp [h]
      · rw [if_neg hle] at h
        exact h ▸ List.mem_cons_of_mem x hm'

theorem minIdAux_le : ∀ {l : List Nat} {m : Nat}, minIdAux l = some m → ∀ x ∈ l, m ≤ x := by
  intro l
  induction l with
  | nil => intro m h; simp [minIdAux] at h
  | cons x xs ih =>
    intro m h y hy
    simp only [minIdAux] at h
    cases hxs : minIdAux xs with
    | none =>
      rw [hxs] at h
      simp only [Option.some.injEq] at h
      have hnil := minIdAux_eq_none hxs
      subst hnil
      rcases List.mem_cons.mp hy with hxy | hxy
      · omega
      · simp at hxy
    | some m' =>
      rw [hxs] at h
      simp only [Option.some.injEq] at h
      have hall := ih hxs
      by_cases hle : x ≤ m'
      · rw [if_pos hle] at h
        rcases List.mem_cons.mp hy with hxy | hxy
        · omega
        · have := hall y hxy
          omega
      · rw [if_neg hle] at h
        rcases List.mem_cons.mp hy with hxy | hxy
        · omega
        · have := hall y hxy
          omega

theorem deleteDupRows_filter_key {α κ : Type} [DecidableEq κ] (key : α → κ) (rid : α → Nat)
    (t : List α) (k : κ) {m : Nat}
    (hm : minIdAux ((t.filter (fun s => decide (key s = k))).map rid) = some m) :
    (deleteDupRows key rid t).filter (fun s => decide (key s = k)) =
      t.filter (fun s => decide (key s = k) && decide (rid s = m)) := by
  have hmem := minIdAux_mem hm
  obtain ⟨w, hw, hwm⟩ := List.mem_map.mp hmem
  have hwt : w ∈ t := (List.mem_filter.mp hw).1
  have hwk : key w = k := by
    have := (List.mem_filter.mp hw).2
    simpa using this
  have hmle : ∀ y ∈ t, key y = k → m ≤ rid y := by
    intro y hy hyk
    exact minIdAux_le hm (rid y)
      (List.mem_map_of_mem rid (List.mem_filter.mpr ⟨hy, by simpa using hyk⟩))
  rw [deleteDupRows, List.filter_filter]
  apply List.filter_congr
  intro x hx
  by_cases hk : key x = k
  · rw [Bool.eq_iff_iff]
    simp only [Bool.and_eq_true, decide_eq_true_eq, Bool.not_eq_true', List.any_eq_false,
      not_and]
    constructor
    · rintro ⟨-, hpred⟩
      refine ⟨hk, ?_⟩
      have h1 : ¬ rid w < rid x := hpred w hwt (by rw [hwk, hk])
      have hxle : m ≤ rid x := hmle x hx hk
      omega
    · rintro ⟨-, hx_eq⟩
      refine ⟨hk, ?_⟩
      intro s hs hsk
      have := hmle s hs (by rw [hsk, hk])
      omega
  · simp [hk]

theorem deleteDupRows_group_length {α κ : Type} [DecidableEq κ] (key : α → κ) (rid : α → Nat)
    (t : List α) (r : α) (hr : r ∈ t) (hnd : (t.map rid).Nodup) :
    ((deleteDupRows key rid t).filter (fun s => decide (key s = key r))).length = 1 := by
  have hrg : r ∈ t.filter (fun s => decide (key s = key r)) :=
    List.mem_filter.mpr ⟨hr, by simp⟩
  obtain ⟨m, hm⟩ : ∃ m, minIdAux ((t.filter (fun s => decide (key s = key r))).map rid) = some m := by
    cases hg : (t.filter (fun s => decide (key s = key r))).map rid with
    | nil =>
      exfalso
      have hmm : rid r ∈ (t.filter (fun s => decide (key s = key r))).map rid :=
        List.mem_map_of_mem rid hrg
      rw [hg] at hmm
      simp at hmm
    | cons a as =>
      exact minIdAux_cons_isSome a as
  rw [deleteDupRows_filter_key key rid t (key r) hm]
  have hgnd : ((t.filter (fun s => decide (key s = key r))).map rid).Nodup :=
    List.Nodup.sublist (List.Sublist.map rid (List.filter_sublist t)) hnd
  have hmmem : m ∈ (t.filter (fun s => decide (key s = key r))).map rid := minIdAux_mem hm
  have hcount : ((t.filter (fun s => decide (key s = key r))).map rid).count m = 1 :=
    List.count_eq_one_of_mem hgnd hmmem
  have h2 : t.filter (fun s => decide (key s = key r) && decide (rid s = m)) =
      t.filter (fun a => decide (rid a = m) && decide (key a = key r)) :=
    List.filter_congr (fun x _ => Bool.and_comm _ _)
  rw [h2, ← List.filter_filter, ← List.countP_eq_length_filter]
  have h3 : List.countP (fun s => decide (rid s = m)) (t.filter (fun s => decide (key s = key r)))
      = List.countP (fun x => decide (x = m)) ((t.filter (fun s => decide (key s = key r))).map rid) := by
    rw [List.countP_map]
    rfl
  rw [h3]
  have h4 : List.countP (fun x => decide (x = m)) ((t.filter (fun s => decide (key s = key r))).map rid)
      = ((t.filter (fun s => decide (key s = key r))).map rid).count m := by
    rw [List.count_eq_countP]
    exact List.countP_congr (fun x _ => by simp)
  rw [h4, hcount]

/-! ### Claims C1, C3, C6 -/

/-- C1: for every state of the course and grade tables (with pairwise-distinct
ids, `id` being the primary key), after the duplicate-resolution functions
complete, each identity group present in the input — courses grouped by
(nombre, licenciatura, semestre), grades grouped by (user_id, materia) —
contains exactly one surviving row, and every survivor's id is the smallest
id of its group. -/
theorem resolveDuplicates_unique_min_survivor (t : List MateriaRow) (u : List CalificacionRow)
    (hmt : (t.map (fun r => r.id)).Nodup) (hcu : (u.map (fun r => r.id)).Nodup) :
    (∀ r ∈ t,
      materiaKeyCount (eliminar_materias_duplicadas t) (materiaKey r) = 1 ∧
      ∀ s ∈ eliminar_materias_duplicadas t, materiaKey s = materiaKey r →
        ∀ w ∈ t, materiaKey w = materiaKey r → s.id ≤ w.id) ∧
    (∀ r ∈ u,
      califKeyCount (eliminar_calificaciones_duplicadas u) (califKey r) = 1 ∧
      ∀ s ∈ eliminar_calificaciones_duplicadas u, califKey s = califKey r →
        ∀ w ∈ u, califKey w = califKey r → s.id ≤ w.id) := by
  constructor
  · intro r hr
    constructor
    · exact deleteDupRows_group_length materiaKey (fun x => x.id) t r hr hmt
    · intro s hs hk w hw hk'
      exact deleteDupRows_min hs hw (by rw [hk, hk'])
  · intro r hr
    constructor
    · exact deleteDupRows_group_length califKey (fun x => x.id) u r hr hcu
    · intro s hs hk w hw hk'
      exact deleteDupRows_min hs hw (by rw [hk, hk'])

theorem resolveDuplicates_unique_min_survivor_witness :
    (([⟨5,"a","l","1"⟩, ⟨2,"a","l","1"⟩, ⟨9,"a","l","1"⟩] : List MateriaRow).map (fun r => r.id)).Nodup ∧
    (([⟨11,1,7,80⟩, ⟨12,1,7,95⟩, ⟨13,1,7,70⟩] : List CalificacionRow).map (fun r => r.id)).Nodup ∧
    materiaKeyCount (eliminar_materias_duplicadas [⟨5,"a","l","1"⟩, ⟨2,"a","l","1"⟩, ⟨9,"a","l","1"⟩])
      (materiaKey ⟨5,"a","l","1"⟩) = 1 ∧
    eliminar_materias_duplicadas [⟨5,"a","l","1"⟩, ⟨2,"a","l","1"⟩, ⟨9,"a","l","1"⟩] = [⟨2,"a","l","1"⟩] ∧
    eliminar_calificaciones_duplicadas [⟨11,1,7,80⟩, ⟨12,1,7,95⟩, ⟨13,1,7,70⟩] = [⟨11,1,7,80⟩] := by
  refine ⟨by decide, by decide, ?_, by decide, by decide⟩
  have h := resolveDuplicates_unique_min_survivor
      [⟨5,"a","l","1"⟩, ⟨2,"a","l","1"⟩, ⟨9,"a","l","1"⟩]
      [⟨11,1,7,80⟩, ⟨12,1,7,95⟩, ⟨13,1,7,70⟩] (by decide) (by decide)
  exact (h.1 ⟨5,"a","l","1"⟩ (by decide)).1

/-- C3: the duplicate-resolution functions are idempotent — a second run on
the output of a first run leaves the table unchanged, hence deletes zero
rows. -/
theorem resolveDuplicates_idempotent (t : List MateriaRow) (u : List CalificacionRow) :
    eliminar_materias_duplicadas (eliminar_materias_duplicadas t) = eliminar_materias_duplicadas t ∧
    (eliminar_materias_duplicadas (eliminar_materias_duplicadas t)).length
      = (eliminar_materias_duplicadas t).length ∧
    eliminar_calificaciones_duplicadas (eliminar_calificaciones_duplicadas u)
      = eliminar_calificaciones_duplicadas u ∧
    (eliminar_calificaciones_duplicadas (eliminar_calificaciones_duplicadas u)).length
      = (eliminar_calificaciones_duplicadas u).length := by
  have h1 : eliminar_materias_duplicadas (eliminar_materias_duplicadas t)
      = eliminar_materias_duplicadas t := deleteDupRows_idem _ _ t
  have h2 : eliminar_calificaciones_duplicadas (eliminar_calificaciones_duplicadas u)
      = eliminar_calificaciones_duplicadas u := deleteDupRows_idem _ _ u
  exact ⟨h1, congrArg List.length h1, h2, congrArg List.length h2⟩

/-- C6: duplicate resolution only deletes rows — every surviving row is the
unchanged original row (the output is a sublist of the input), and resolving
course duplicates does not touch the grades table, so grade rows referencing
a deleted duplicate course remain in place. -/
theorem resolveDuplicates_frame (db : DBState) :
    (eliminar_materias_duplicadas_db db).calificaciones = db.calificaciones ∧
    (eliminar_materias_duplicadas_db db).estudiantes = db.estudiantes ∧
    List.Sublist (eliminar_materias_duplicadas_db db).materias db.materias ∧
    (∀ r ∈ (eliminar_materias_duplicadas_db db).materias, r ∈ db.materias) ∧
    (∀ c ∈ db.calificaciones, c ∈ (eliminar_materias_duplicadas_db db).calificaciones) ∧
    List.Sublist (eliminar_calificaciones_duplicadas_db db).calificaciones db.calificaciones ∧
    (∀ c ∈ (eliminar_calificaciones_duplicadas_db db).calificaciones, c ∈ db.calificaciones) ∧
    (eliminar_calificaciones_duplicadas_db db).materias = db.materias ∧
    (eliminar_calificaciones_duplicadas_db db).estudiantes = db.estudiantes := by
  refine ⟨rfl, rfl, List.filter_sublist _, ?_, ?_, List.filter_sublist _, ?_, rfl, rfl⟩
  · intro r hr
    exact (List.filter_sublist _).subset hr
  · intro c hc
    exact hc
  · intro c hc
    exact (List.filter_sublist _).subset hc

/-! ### Helper lemmas about the upsert path -/

theorem pairMatch_eq_key (u m : Nat) (r : CalificacionRow) :
    pairMatch u m r = decide (califKey r = (u, m)) := by
  by_cases h1 : r.user_id = u <;> by_cases h2 : r.materia = m <;>
    simp [pairMatch, califKey, Prod.ext_iff, h1, h2]

theorem pairMatch_update (u m : Nat) (v : Int) (r0 r : CalificacionRow) :
    pairMatch u m (if r.id = r0.id then { r with calificacion := v } else r) = pairMatch u m r := by
  by_cases h : r.id = r0.id <;> simp [h, pairMatch]

theorem find_map_set (p : CalificacionRow → Bool) (v : Int) :
    ∀ (t : List CalificacionRow), (t.map (fun r => r.id)).Nodup →
      ∀ {r0 : CalificacionRow}, t.find? p = some r0 →
      ∃ i, ∃ hi : i < t.length, t.get ⟨i, hi⟩ = r0 ∧
        t.map (fun r => if r.id = r0.id then { r with calificacion := v } else r) =
          t.set i { r0 with calificacion := v } := by
  intro t
  induction t with
  | nil =>
    intro _ r0 h
    simp at h
  | cons a t ih =>
    intro hnd r0 h
    rw [List.find?_cons] at h
    cases hp : p a with
    | true =>
      rw [hp] at h
      simp only [Option.some.injEq] at h
      subst h
      refine ⟨0, Nat.succ_pos t.length, rfl, ?_⟩
      have hne : ∀ r ∈ t, r.id ≠ a.id := by
        intro r hr hre
        have hmem : a.id ∈ t.map (fun x => x.id) := hre ▸ List.mem_map_of_mem _ hr
        exact (List.nodup_cons.mp hnd).1 hmem
      have hmap : t.map (fun r => if r.id = a.id then { r with calificacion := v } else r) = t := by
        conv_rhs => rw [← List.map_id t]
        exact List.map_congr_left (fun r hr => by rw [if_neg (hne r hr)]; rfl)
      simp [List.set_cons_zero, hmap]
    | false =>
      rw [hp] at h
      simp only at h
      have hndt : (t.map (fun r => r.id)).Nodup := (List.nodup_cons.mp hnd).2
      obtain ⟨i, hi, hget, hmap⟩ := ih hndt h
      have hr0t : r0 ∈ t := List.mem_of_find?_eq_some h
      have hane : ¬ a.id = r0.id := by
        intro hre
        have hmem : a.id ∈ t.map (fun x => x.id) := by
          rw [hre]
          exact List.mem_map_of_mem _ hr0t
        exact (List.nodup_cons.mp hnd).1 hmem
      refine ⟨i + 1, Nat.succ_lt_succ hi, ?_, ?_⟩
      · simpa using hget
      · rw [List.map_cons, List.set_cons_succ, hmap, if_neg hane]

/-! ### Claim C2 -/

/-- C2: for every (user_id, materia) pair, `actualizar_calificacion` looks up
a grade row for the pair; when no row exists it appends exactly one new row
with the given score and reports Inserted, and the rows for the pair in the
result are exactly that one row; when exactly one row exists it reports
Updated, keeps the table length, and the rows for the pair in the result are
exactly the found row with its score replaced (same surrogate id). -/
theorem recordGrade_upsert (t : List CalificacionRow) (u m : Nat) (v : Int) :
    (califKeyCount t (u, m) = 0 →
      actualizar_calificacion t u m v =
        (t ++ [{ id := freshId t, user_id := u, materia := m, calificacion := v }],
         Outcome.Inserted) ∧
      (actualizar_calificacion t u m v).1.filter (pairMatch u m) =
        [{ id := freshId t, user_id := u, materia := m, calificacion := v }]) ∧
    (califKeyCount t (u, m) = 1 →
      ∃ r0, t.find? (pairMatch u m) = some r0 ∧
        (actualizar_calificacion t u m v).2 = Outcome.Updated ∧
        (actualizar_calificacion t u m v).1.length = t.length ∧
        (actualizar_calificacion t u m v).1.filter (pairMatch u m) =
          [{ r0 with calificacion := v }]) := by
  constructor
  · intro h0
    have hfil : t.filter (fun r => decide (califKey r = (u, m))) = [] :=
      List.length_eq_zero.mp h0
    have hnone : t.find? (pairMatch u m) = none := by
      rw [List.find?_eq_none]
      intro x hx hpx
      have hxf : x ∈ t.filter (fun r => decide (califKey r = (u, m))) := by
        refine List.mem_filter.mpr ⟨hx, ?_⟩
        rw [← pairMatch_eq_key]
        exact hpx
      rw [hfil] at hxf
      simp at hxf
    have heq : actualizar_calificacion t u m v =
        (t ++ [{ id := freshId t, user_id := u, materia := m, calificacion := v }],
         Outcome.Inserted) := by
      rw [actualizar_calificacion, hnone]
    refine ⟨heq, ?_⟩
    rw [heq]
    rw [List.filter_append]
    have ht : t.filter (pairMatch u m) = [] := by
      rw [List.filter_congr (fun r _ => pairMatch_eq_key u m r)]
      exact hfil
    rw [ht]
    simp [pairMatch]
  · intro h1
    obtain ⟨r0', hr0'⟩ := List.length_eq_one.mp h1
    have hr0'mem : r0' ∈ t.filter (fun r => decide (califKey r = (u, m))) := by
      rw [hr0']
      simp
    have hr0't : r0' ∈ t := (List.mem_filter.mp hr0'mem).1
    have hp0' : pairMatch u m r0' = true := by
      rw [pairMatch_eq_key]
      exact (List.mem_filter.mp hr0'mem).2
    have hsome : (t.find? (pairMatch u m)).isSome :=
      List.find?_isSome.mpr ⟨r0', hr0't, hp0'⟩
    obtain ⟨r0, hfind⟩ := Option.isSome_iff_exists.mp hsome
    have hr0t : r0 ∈ t := List.mem_of_find?_eq_some hfind
    have hp0 : pairMatch u m r0 = true := List.find?_some hfind
    have hr0mem : r0 ∈ t.filter (fun r => decide (califKey r = (u, m))) :=
      List.mem_filter.mpr ⟨hr0t, by rw [← pairMatch_eq_key]; exact hp0⟩
    have hr00 : r0 = r0' := by
      rw [hr0'] at hr0mem
      simpa using hr0mem
    subst hr00
    have hstep : (actualizar_calificacion t u m v).1 =
        t.map (fun r => if r.id = r0.id then { r with calificacion := v } else r) := by
      simp [actualizar_calificacion, hfind]
    refine ⟨r0, hfind, ?_, ?_, ?_⟩
    · simp [actualizar_calificacion, hfind]
    · rw [hstep, List.length_map]
    · rw [hstep, List.filter_map]
      have h5 : t.filter ((pairMatch u m) ∘
            (fun r => if r.id = r0.id then { r with calificacion := v } else r))
          = t.filter (pairMatch u m) :=
        List.filter_congr (fun r _ => by
          simp only [Function.comp_apply]
          exact pairMatch_update u m v r0 r)
      rw [h5]
      have h6 : t.filter (pairMatch u m) = [r0] := by
        rw [List.filter_congr (fun r _ => pairMatch_eq_key u m r)]
        exact hr0'
      rw [h6]
      simp

theorem recordGrade_upsert_witness :
    califKeyCount ([] : List CalificacionRow) (3, 4) = 0 ∧
    actualizar_calificacion [] 3 4 88 =
      ([{ id := 1, user_id := 3, materia := 4, calificacion := 88 }], Outcome.Inserted) ∧
    califKeyCount [⟨1, 3, 4, 88⟩] (3, 4) = 1 ∧
    (actualizar_calificacion [⟨1, 3, 4, 88⟩] 3 4 91).2 = Outcome.Updated ∧
    (actualizar_calificacion [⟨1, 3, 4, 88⟩] 3 4 91).1.filter (pairMatch 3 4) =
      [{ id := 1, user_id := 3, materia := 4, calificacion := 91 }] := by
  refine ⟨by decide, ?_, by decide, ?_, ?_⟩
  · exact ((recordGrade_upsert [] 3 4 88).1 (by decide)).1
  · obtain ⟨r0, hfind, hupd, -, -⟩ := (recordGrade_upsert [⟨1, 3, 4, 88⟩] 3 4 91).2 (by decide)
    exact hupd
  · obtain ⟨r0, hfind, -, -, hfil⟩ := (recordGrade_upsert [⟨1, 3, 4, 88⟩] 3 4 91).2 (by decide)
    have hr0 : r0 = ⟨1, 3, 4, 88⟩ := by
      have := List.mem_of_find?_eq_some hfind
      simpa using this
    rw [hr0] at hfil
    exact hfil

/-! ### Claims C7 and C8 -/

/-- C7: every successful `actualizar_calificacion` call performs exactly one
row mutation on the grades table — the INSERT branch appends exactly one new
row, the UPDATE branch replaces the single row at one position, changing only
its score — and leaves the `estudiantes` and `materias` tables unchanged
(ids pairwise distinct, `id` being the primary key). -/
theorem recordGrade_single_mutation (db : DBState) (u m : Nat) (v : Int)
    (hnd : (db.calificaciones.map (fun r => r.id)).Nodup) :
    (actualizar_calificacion_db db u m v).1.estudiantes = db.estudiantes ∧
    (actualizar_calificacion_db db u m v).1.materias = db.materias ∧
    (db.calificaciones.find? (pairMatch u m) = none →
      (actualizar_calificacion_db db u m v).1.calificaciones =
        db.calificaciones ++
          [{ id := freshId db.calificaciones, user_id := u, materia := m, calificacion := v }]) ∧
    (∀ r0, db.calificaciones.find? (pairMatch u m) = some r0 →
      ∃ i, ∃ hi : i < db.calificaciones.length,
        db.calificaciones.get ⟨i, hi⟩ = r0 ∧
        (actualizar_calificacion_db db u m v).1.calificaciones =
          db.calificaciones.set i { r0 with calificacion := v }) := by
  refine ⟨rfl, rfl, ?_, ?_⟩
  · intro hnone
    simp [actualizar_calificacion_db, actualizar_calificacion, hnone]
  · intro r0 hfind
    obtain ⟨i, hi, hget, hmap⟩ := find_map_set (pairMatch u m) v db.calificaciones hnd hfind
    refine ⟨i, hi, hget, ?_⟩
    simp only [actualizar_calificacion_db, actualizar_calificacion, hfind]
    exact hmap

theorem recordGrade_single_mutation_witness :
    ((([⟨1, 3, 4, 88⟩] : List CalificacionRow)).map (fun r => r.id)).Nodup ∧
    (actualizar_calificacion_db ⟨[], [], [⟨1, 3, 4, 88⟩]⟩ 3 4 91).1.estudiantes = [] ∧
    (actualizar_calificacion_db ⟨[], [], [⟨1, 3, 4, 88⟩]⟩ 3 4 91).1.materias = [] := by
  have h := recordGrade_single_mutation ⟨[], [], [⟨1, 3, 4, 88⟩]⟩ 3 4 91 (by decide)
  exact ⟨by decide, h.1, h.2.1⟩

/-- C8: when two or more grade rows already exist for the same (user_id,
materia) pair, `actualizar_calificacion` updates the score of exactly the
single row returned by its lookup (the first in table order) and leaves
every other row — in particular every other duplicate — byte-for-byte
unchanged; it never merges, deletes, or collapses the pre-existing
duplicates (ids pairwise distinct, `id` being the primary key). -/
theorem recordGrade_updates_one_duplicate (t : List CalificacionRow) (u m : Nat) (v : Int)
    (hnd : (t.map (fun r => r.id)).Nodup) (hdup : 2 ≤ califKeyCount t (u, m)) :
    ∃ r0, t.find? (pairMatch u m) = some r0 ∧
      (actualizar_calificacion t u m v).2 = Outcome.Updated ∧
      (actualizar_calificacion t u m v).1.length = t.length ∧
      ∃ i, ∃ hi : i < t.length, t.get ⟨i, hi⟩ = r0 ∧
        (actualizar_calificacion t u m v).1 = t.set i { r0 with calificacion := v } ∧
        ∀ j, j ≠ i → (actualizar_calificacion t u m v).1[j]? = t[j]? := by
  have hpos : 0 < List.countP (fun r => decide (califKey r = (u, m))) t := by
    rw [List.countP_eq_length_filter]
    have : califKeyCount t (u, m) = (t.filter (fun r => decide (califKey r = (u, m)))).length := rfl
    omega
  obtain ⟨x, hx, hpx⟩ := List.countP_pos_iff.mp hpos
  have hsome : (t.find? (pairMatch u m)).isSome :=
    List.find?_isSome.mpr ⟨x, hx, by rw [pairMatch_eq_key]; exact hpx⟩
  obtain ⟨r0, hfind⟩ := Option.isSome_iff_exists.mp hsome
  obtain ⟨i, hi, hget, hmap⟩ := find_map_set (pairMatch u m) v t hnd hfind
  have hstep : (actualizar_calificacion t u m v).1 =
      t.set i { r0 with calificacion := v } := by
    simp only [actualizar_calificacion, hfind]
    exact hmap
  refine ⟨r0, hfind, by simp [actualizar_calificacion, hfind], ?_, i, hi, hget, hstep, ?_⟩
  · rw [hstep, List.length_set]
  · intro j hj
    rw [hstep]
    exact List.getElem?_set_ne (Ne.symm hj)

theorem recordGrade_updates_one_duplicate_witness :
    (([⟨1, 3, 4, 80⟩, ⟨2, 3, 4, 95⟩] : List CalificacionRow).map (fun r => r.id)).Nodup ∧
    2 ≤ califKeyCount [⟨1, 3, 4, 80⟩, ⟨2, 3, 4, 95⟩] (3, 4) ∧
    (actualizar_calificacion [⟨1, 3, 4, 80⟩, ⟨2, 3, 4, 95⟩] 3 4 60).2 = Outcome.Updated ∧
    (actualizar_calificacion [⟨1, 3, 4, 80⟩, ⟨2, 3, 4, 95⟩] 3 4 60).1.length = 2 := by
  obtain ⟨r0, -, hupd, hlen, -⟩ :=
    recordGrade_updates_one_duplicate [⟨1, 3, 4, 80⟩, ⟨2, 3, 4, 95⟩] 3 4 60 (by decide) (by decide)
  exact ⟨by decide, by decide, hupd, hlen⟩

/-! ### Claims C5 and C10 -/

/-- C5: when the underlying write fails during `actualizar_calificacion`
(`writeOk = false`), the operation makes no retry, the failure propagates to
the caller as a `StorageError`, and the grades table is left unchanged —
the pending change is rolled back by the `except` branch, so no partial
state remains. -/
theorem recordGrade_write_failure (t : List CalificacionRow) (u m : Nat) (v : Int) :
    actualizar_calificacion_run false t u m v =
      (t, Except.error StorageError.writeFailed) := rfl

/-- C10: duplicate resolution is all-or-nothing — the deletion is a single
statement committed once, so when it fails (`writeOk = false`) the table is
exactly the starting table, with zero rows deleted, and the error is
raised. -/
theorem resolveDuplicates_all_or_nothing (t : List MateriaRow) (u : List CalificacionRow) :
    eliminar_materias_duplicadas_run false t = (t, Except.error StorageError.writeFailed) ∧
    (eliminar_materias_duplicadas_run false t).1.length = t.length ∧
    eliminar_calificaciones_duplicadas_run false u = (u, Except.error StorageError.writeFailed) ∧
    (eliminar_calificaciones_duplicadas_run false u).1.length = u.length :=
  ⟨rfl, rfl, rfl, rfl⟩

/-! ### Claim C9 -/

theorem verificar_materia_duplicada_iff (t : List MateriaRow) (n l s : String) :
    verificar_materia_duplicada t n l s = true ↔ ∃ r ∈ t, materiaKey r = (n, l, s) := by
  rw [verificar_materia_duplicada, List.find?_isSome]
  constructor
  · rintro ⟨x, hx, hpx⟩
    refine ⟨x, hx, ?_⟩
    simp only [Bool.and_eq_true, decide_eq_true_eq] at hpx
    simp [materiaKey, hpx.1.1, hpx.1.2, hpx.2]
  · rintro ⟨x, hx, hkx⟩
    refine ⟨x, hx, ?_⟩
    simp only [materiaKey, Prod.mk.injEq] at hkx
    simp [hkx.1, hkx.2.1, hkx.2.2]

theorem add_materia_nodup (t : List MateriaRow) (n l s : String)
    (h : (t.map materiaKey).Nodup) : ((add_materia t n l s).map materiaKey).Nodup := by
  rw [add_materia]
  by_cases h0 : n = "" ∨ l = "" ∨ s = ""
  · rw [if_pos h0]
    exact h
  · rw [if_neg h0]
    by_cases hdup : verificar_materia_duplicada t n l s
    · rw [if_pos hdup]
      exact h
    · rw [if_neg hdup]
      rw [List.map_append]
      rw [List.nodup_append]
      refine ⟨h, List.nodup_singleton _, ?_⟩
      rw [List.map_cons, List.map_nil, List.disjoint_singleton]
      intro hmem
      obtain ⟨r, hr, hkr⟩ := List.mem_map.mp hmem
      exact hdup ((verificar_materia_duplicada_iff t n l s).mpr ⟨r, hr, hkr⟩)

theorem add_materia_fold_nodup (requests : List (String × String × String)) :
    ∀ t : List MateriaRow, (t.map materiaKey).Nodup →
      ((requests.foldl (fun acc q => add_materia acc q.1 q.2.1 q.2.2) t).map materiaKey).Nodup := by
  induction requests with
  | nil =>
    intro t h
    exact h
  | cons q qs ih =>
    intro t h
    exact ih _ (add_materia_nodup t q.1 q.2.1 q.2.2 h)

/-- C9: `verificar_materia_duplicada` returns true exactly when a course row
with the given (nombre, licenciatura, semestre) identity exists, and
`add_materia` inserts only when it returns false, so in single-threaded
execution any sequence of `add_materia` calls starting from a table with
pairwise-distinct identities (in particular the empty table) never produces
two course rows with the same identity tuple. -/
theorem add_materia_never_duplicates (t : List MateriaRow) (n l s : String)
    (requests : List (String × String × String)) :
    (verificar_materia_duplicada t n l s = true ↔ ∃ r ∈ t, materiaKey r = (n, l, s)) ∧
    (verificar_materia_duplicada t n l s = true → add_materia t n l s = t) ∧
    ((t.map materiaKey).Nodup → ((add_materia t n l s).map materiaKey).Nodup) ∧
    ((t.map materiaKey).Nodup →
      ((requests.foldl (fun acc q => add_materia acc q.1 q.2.1 q.2.2) t).map materiaKey).Nodup) := by
  refine ⟨verificar_materia_duplicada_iff t n l s, ?_, add_materia_nodup t n l s, ?_⟩
  · intro hdup
    rw [add_materia]
    by_cases h0 : n = "" ∨ l = "" ∨ s = ""
    · rw [if_pos h0]
    · rw [if_neg h0, if_pos hdup]
  · intro h
    exact add_materia_fold_nodup requests t h

theorem add_materia_never_duplicates_witness :
    verificar_materia_duplicada [⟨1, "a", "l", "1"⟩] "a" "l" "1" = true ∧
    add_materia [⟨1, "a", "l", "1"⟩] "a" "l" "1" = [⟨1, "a", "l", "1"⟩] ∧
    (([⟨1, "a", "l", "1"⟩] : List MateriaRow).map materiaKey).Nodup ∧
    ((add_materia [⟨1, "a", "l", "1"⟩] "b" "l" "1").map materiaKey).Nodup := by
  refine ⟨by decide, ?_, by decide, ?_⟩
  · exact (add_materia_never_duplicates [⟨1, "a", "l", "1"⟩] "a" "l" "1" []).2.1 (by decide)
  · exact (add_materia_never_duplicates [⟨1, "a", "l", "1"⟩] "b" "l" "1" []).2.2.1 (by decide)

/-! ### Claim C4 -/

/-- C4 counterexample: in a table with two rows of one identity group (ids 1
and 2), the row with id 1 belongs to a group with more than one member, yet
the duplicate-preview query does not return it — the query keeps only the
rows whose id is not the MIN(id) of a group, so the canonical row of each
duplicate group is omitted. -/
theorem listDuplicateGroups_omits_canonical_row :
    (⟨1, "a", "l", "1"⟩ : MateriaRow) ∈
      ([⟨1, "a", "l", "1"⟩, ⟨2, "a", "l", "1"⟩] : List MateriaRow) ∧
    1 < materiaKeyCount [⟨1, "a", "l", "1"⟩, ⟨2, "a", "l", "1"⟩]
      (materiaKey ⟨1, "a", "l", "1"⟩) ∧
    (⟨1, "a", "l", "1"⟩ : MateriaRow) ∉
      materias_duplicadas_query [⟨1, "a", "l", "1"⟩, ⟨2, "a", "l", "1"⟩] := by
  decide

theorem grupo_minIdAux_isSome {t : List MateriaRow} {r : MateriaRow}
    (hrg : r ∈ grupoMaterias t (materiaKey r)) :
    ∃ m, minIdAux ((grupoMaterias t (materiaKey r)).map (fun x => x.id)) = some m := by
  cases hg : (grupoMaterias t (materiaKey r)).map (fun x => x.id) with
  | nil =>
    exfalso
    have hmm : r.id ∈ (grupoMaterias t (materiaKey r)).map (fun x => x.id) :=
      List.mem_map_of_mem _ hrg
    rw [hg] at hmm
    simp at hmm
  | cons a as =>
    exact minIdAux_cons_isSome a as

theorem mem_materias_duplicadas_query_raw {t : List MateriaRow} {r : MateriaRow} :
    r ∈ materias_duplicadas_query t ↔
      r ∈ t ∧ ∀ s ∈ t,
        ¬ minIdAux ((grupoMaterias t (materiaKey s)).map (fun x => x.id)) = some r.id := by
  simp only [materias_duplicadas_query, List.mem_filter, Bool.not_eq_eq_eq_not, Bool.not_true,
    List.any_eq_false, decide_eq_true_eq]

theorem mem_materias_duplicadas_query {t : List MateriaRow}
    (hnd : (t.map (fun r => r.id)).Nodup) {r : MateriaRow} :
    r ∈ materias_duplicadas_query t ↔
      r ∈ t ∧ ∃ s ∈ t, materiaKey s = materiaKey r ∧ s.id < r.id := by
  rw [mem_materias_duplicadas_query_raw]
  constructor
  · rintro ⟨hr, hall⟩
    refine ⟨hr, ?_⟩
    have hrg : r ∈ grupoMaterias t (materiaKey r) :=
      List.mem_filter.mpr ⟨hr, by simp⟩
    obtain ⟨m, hm⟩ := grupo_minIdAux_isSome hrg
    have hne : m ≠ r.id := fun he => hall r hr (he ▸ hm)
    obtain ⟨w, hw, hwm⟩ := List.mem_map.mp (minIdAux_mem hm)
    have hle : m ≤ r.id := minIdAux_le hm r.id (List.mem_map_of_mem _ hrg)
    refine ⟨w, (List.mem_filter.mp hw).1, ?_, ?_⟩
    · simpa using (List.mem_filter.mp hw).2
    · omega
  · rintro ⟨hr, s, hs, hks, hlt⟩
    refine ⟨hr, ?_⟩
    intro x hx hmin
    obtain ⟨w, hw, hwm⟩ := List.mem_map.mp (minIdAux_mem hmin)
    have hwt : w ∈ t := (List.mem_filter.mp hw).1
    have hwr : w = r := List.inj_on_of_nodup_map hnd hwt hr hwm
    subst hwr
    have hkr : materiaKey w = materiaKey x := by
      simpa using (List.mem_filter.mp hw).2
    have hsg : s ∈ grupoMaterias t (materiaKey x) :=
      List.mem_filter.mpr ⟨hs, by simp [hks.trans hkr]⟩
    have hsle := minIdAux_le hmin s.id (List.mem_map_of_mem _ hsg)
    omega

theorem two_le_length_of_mem_ne {α : Type} {l : List α} {x y : α}
    (hx : x ∈ l) (hy : y ∈ l) (hne : x ≠ y) : 2 ≤ l.length := by
  cases l with
  | nil => simp at hx
  | cons a as =>
    rcases List.mem_cons.mp hx with hxa | hxa
    · rcases List.mem_cons.mp hy with hya | hya
      · exact absurd (hxa.trans hya.symm) hne
      · have h1 : 0 < as.length := List.length_pos.mpr (List.ne_nil_of_mem hya)
        simp only [List.length_cons]
        omega
    · have h1 : 0 < as.length := List.length_pos.mpr (List.ne_nil_of_mem hxa)
      simp only [List.length_cons]
      omega

theorem exists_ne_of_two_le_length {α : Type} {l : List α} (hnd : l.Nodup)
    (hlen : 2 ≤ l.length) {x : α} (hx : x ∈ l) : ∃ y ∈ l, y ≠ x := by
  cases l with
  | nil => simp at hx
  | cons a as =>
    rcases List.mem_cons.mp hx with hxa | hxa
    · subst hxa
      cases as with
      | nil => simp at hlen
      | cons b bs =>
        refine ⟨b, List.mem_cons_of_mem _ (List.mem_cons_self b bs), ?_⟩
        intro hba
        exact (List.nodup_cons.mp hnd).1 (hba ▸ List.mem_cons_self b bs)
    · exact ⟨a, List.mem_cons_self a as,
        fun hax => (List.nodup_cons.mp hnd).1 (hax ▸ hxa)⟩

/-- C4 (amended): the duplicate-preview query returns exactly the rows that
are NOT the smallest-id row of their identity group; consequently every
returned row belongs to a group with more than one member (never a singleton
group), and the result is empty exactly when every group has one member —
but the smallest-id (canonical) row of a multi-member group is never
included, so the query does not return every row of such groups (ids
pairwise distinct, `id` being the primary key). -/
theorem listDuplicateGroups_characterization (t : List MateriaRow)
    (hnd : (t.map (fun r => r.id)).Nodup) :
    (∀ r, r ∈ materias_duplicadas_query t ↔
        r ∈ t ∧ ∃ s ∈ t, materiaKey s = materiaKey r ∧ s.id < r.id) ∧
    (∀ r ∈ materias_duplicadas_query t, 1 < materiaKeyCount t (materiaKey r)) ∧
    (materias_duplicadas_query t = [] ↔
      ∀ r ∈ t, materiaKeyCount t (materiaKey r) = 1) := by
  have hchar : ∀ r : MateriaRow, r ∈ materias_duplicadas_query t ↔
      r ∈ t ∧ ∃ s ∈ t, materiaKey s = materiaKey r ∧ s.id < r.id :=
    fun r => mem_materias_duplicadas_query hnd
  have hrows : t.Nodup := List.Nodup.of_map _ hnd
  refine ⟨hchar, ?_, ?_⟩
  · intro r hr
    obtain ⟨hrt, s, hs, hks, hlt⟩ := (hchar r).mp hr
    have hrg : r ∈ t.filter (fun x => decide (materiaKey x = materiaKey r)) :=
      List.mem_filter.mpr ⟨hrt, by simp⟩
    have hsg : s ∈ t.filter (fun x => decide (materiaKey x = materiaKey r)) :=
      List.mem_filter.mpr ⟨hs, by simp [hks]⟩
    have hne : s ≠ r := by
      intro he
      rw [he] at hlt
      omega
    exact two_le_length_of_mem_ne hsg hrg hne
  · constructor
    · intro hq r hr
      have hrg : r ∈ t.filter (fun x => decide (materiaKey x = materiaKey r)) :=
        List.mem_filter.mpr ⟨hr, by simp⟩
      have hpos : 1 ≤ materiaKeyCount t (materiaKey r) :=
        List.length_pos.mpr (List.ne_nil_of_mem hrg)
      by_contra hcount
      have h2 : 2 ≤ (t.filter (fun x => decide (materiaKey x = materiaKey r))).length := by
        have : materiaKeyCount t (materiaKey r)
            = (t.filter (fun x => decide (materiaKey x = materiaKey r))).length := rfl
        omega
      have hgnd : (t.filter (fun x => decide (materiaKey x = materiaKey r))).Nodup :=
        List.Nodup.sublist (List.filter_sublist t) hrows
      obtain ⟨y, hy, hyne⟩ := exists_ne_of_two_le_length hgnd h2 hrg
      have hyt : y ∈ t := (List.mem_filter.mp hy).1
      have hyk : materiaKey y = materiaKey r := by
        simpa using (List.mem_filter.mp hy).2
      have hidne : y.id ≠ r.id :=
        fun he => hyne (List.inj_on_of_nodup_map hnd hyt hr he)
      rcases Nat.lt_or_ge y.id r.id with hlt | hge
      · have : r ∈ materias_duplicadas_query t :=
          (hchar r).mpr ⟨hr, y, hyt, hyk, hlt⟩
        rw [hq] at this
        simp at this
      · have hlt2 : r.id < y.id := by omega
        have : y ∈ materias_duplicadas_query t :=
          (hchar y).mpr ⟨hyt, r, hr, hyk.symm, hlt2⟩
        rw [hq] at this
        simp at this
    · intro hall
      rw [List.eq_nil_iff_forall_not_mem]
      intro r hmem
      obtain ⟨hr, s, hs, hks, hlt⟩ := (hchar r).mp hmem
      have hrg : r ∈ t.filter (fun x => decide (materiaKey x = materiaKey r)) :=
        List.mem_filter.mpr ⟨hr, by simp⟩
      have hsg : s ∈ t.filter (fun x => decide (materiaKey x = materiaKey r)) :=
        List.mem_filter.mpr ⟨hs, by simp [hks]⟩
      have hne : s ≠ r := by
        intro he
        rw [he] at hlt
        omega
      have h2 := two_le_length_of_mem_ne hsg hrg hne
      have hone := hall r hr
      have : materiaKeyCount t (materiaKey r)
          = (t.filter (fun x => decide (materiaKey x = materiaKey r))).length := rfl
      omega

theorem listDuplicateGroups_characterization_witness :
    (([⟨1, "a", "l", "1"⟩, ⟨2, "a", "l", "1"⟩] : List MateriaRow).map (fun r => r.id)).Nodup ∧
    (⟨2, "a", "l", "1"⟩ : MateriaRow) ∈
      materias_duplicadas_query [⟨1, "a", "l", "1"⟩, ⟨2, "a", "l", "1"⟩] := by
  refine ⟨by decide, ?_⟩
  have h := listDuplicateGroups_characterization
    [⟨1, "a", "l", "1"⟩, ⟨2, "a", "l", "1"⟩] (by decide)
  exact (h.1 ⟨2, "a", "l", "1"⟩).mpr
    ⟨by decide, ⟨1, "a", "l", "1"⟩, by decide, rfl, by decide⟩

end Plataforma
